import Mathlib

/-!
Verification of the review-analysis pipeline (analyzer.py, app.py,
llm_engine.py, validator.py, config.py) against its specification.

The Python code is shallowly embedded: pandas DataFrames become lists,
DataFrame indices become the positions produced by `List.enum`, Python
dicts become functions `Nat → Option _` built by left folds (matching the
insertion-overwrite semantics of dict assignment), and the LLM client is
an abstract oracle function.  Floats are modelled by `ℚ`.
-/

/-- models.py `ReviewInsight`: one insight extracted from a review. -/
structure ReviewInsight where
  aspect : String
  sentiment : String
  evidence : String
  rationale : String
deriving DecidableEq, Repr

/-- models.py `ReviewResult`: the analysis result for one review,
carrying the id that maps it back to the original row. -/
structure ReviewResult where
  id : Nat
  insights : List ReviewInsight
deriving DecidableEq, Repr

/-- models.py `BatchResponse`: top-level container of the parsed API
response. -/
structure BatchResponse where
  reviews : List ReviewResult
deriving DecidableEq, Repr

/-- One output record appended to `analyzed_data` in
analyzer.py `process_excel_file`. -/
structure AnalyzedRow where
  original_text : String
  aspect : String
  sentiment : String
  evidence : String
  rationale : String
deriving DecidableEq, Repr

/-- The batch LLM client as seen by the orchestration loop: it receives
the list of (id, text) pairs of a batch and returns a list of
`ReviewResult`s (analyzer.py line 67 `analyze_review_batch(batch_input)`). -/
def Oracle : Type := List (Nat × String) → List ReviewResult

/-- The slicing loop `for i in range(0, total_rows, batch_size)` of
analyzer.py (and `for i in range(0, len(batch_input), BATCH_SIZE)` of
validator.py `_get_predictions`): successive slices of length `n`.
For `n = 0` Python would raise; we return `[]` in that unused case. -/
def chunkList (n : Nat) (l : List α) : List (List α) :=
  match n, l with
  | _, [] => []
  | 0, _ :: _ => []
  | m + 1, a :: t => ((a :: t).take (m + 1)) :: chunkList (m + 1) ((a :: t).drop (m + 1))
termination_by l.length
decreasing_by
  simp only [List.length_drop, List.length_cons]
  omega

theorem chunkList_nil (n : Nat) : chunkList n ([] : List α) = [] := by
  cases n <;> simp [chunkList]

theorem chunkList_zero (l : List α) : chunkList 0 l = [] := by
  cases l <;> simp [chunkList]

theorem chunkList_cons (n : Nat) (l : List α) (hn : n ≠ 0) (hl : l ≠ []) :
    chunkList n l = l.take n :: chunkList n (l.drop n) := by
  match n, l with
  | 0, _ => exact absurd rfl hn
  | _ + 1, [] => exact absurd rfl hl
  | m + 1, a :: t => simp [chunkList]

/-- Each chunk is made of elements of the original list. -/
theorem mem_of_mem_chunkList {n : Nat} {l c : List α} (hc : c ∈ chunkList n l)
    {x : α} (hx : x ∈ c) : x ∈ l := by
  induction n, l using chunkList.induct with
  | case1 n => rw [chunkList_nil] at hc; cases hc
  | case2 a t => rw [chunkList_zero] at hc; cases hc
  | case3 m a t ih =>
    rw [chunkList_cons (m + 1) (a :: t) (by omega) (by simp)] at hc
    rcases List.mem_cons.mp hc with h1 | h1
    · subst h1; exact List.mem_of_mem_take hx
    · exact List.mem_of_mem_drop (ih h1)

/-- Concatenating the chunks recovers the list (for a positive size). -/
theorem chunkList_flatten {n : Nat} (hn : n ≠ 0) (l : List α) :
    (chunkList n l).flatten = l := by
  induction n, l using chunkList.induct with
  | case1 n => rw [chunkList_nil]; rfl
  | case2 a t => exact absurd rfl hn
  | case3 m a t ih =>
    rw [chunkList_cons (m + 1) (a :: t) (by omega) (by simp)]
    simp only [List.flatten_cons, ih (by omega)]
    exact List.take_append_drop _ _

/-- Python dict lookup model: a dict written by the successive
assignments `m[r.id] = r.insights` (later writes win), read back with
`m.get(k, default)`. -/
def dictWrite (m : Nat → Option (List ReviewInsight)) (r : ReviewResult) :
    Nat → Option (List ReviewInsight) :=
  fun k => if k = r.id then some r.insights else m k

/-- The dict comprehension of analyzer.py line 70:
`results_map = {res.id: res.insights for res in batch_results}`. -/
def resultsMapOf (rs : List ReviewResult) : Nat → Option (List ReviewInsight) :=
  rs.foldl dictWrite (fun _ => none)

/-- `results_map.get(original_id, [])` of analyzer.py line 77. -/
def dictGetInsights (rs : List ReviewResult) (k : Nat) : List ReviewInsight :=
  (resultsMapOf rs k).getD []

theorem foldl_dictWrite_apply (rs : List ReviewResult)
    (m : Nat → Option (List ReviewInsight)) (k : Nat) :
    rs.foldl dictWrite m k =
      match (rs.filter (fun r => r.id == k)).getLast? with
      | some r => some r.insights
      | none => m k := by
  induction rs generalizing m with
  | nil => rfl
  | cons r rs ih =>
    simp only [List.foldl_cons, List.filter_cons]
    by_cases hk : r.id = k
    · simp only [hk, beq_self_eq_true, if_pos]
      rw [ih]
      cases hlast : (rs.filter (fun r => r.id == k)).getLast? with
      | some r' => simp [List.getLast?_cons, hlast]
      | none =>
        have : rs.filter (fun r => r.id == k) = [] := by
          cases h : rs.filter (fun r => r.id == k) with
          | nil => rfl
          | cons a l => rw [h] at hlast; simp [List.getLast?_concat] at hlast
        simp [this, dictWrite, hk]
    · have : (r.id == k) = false := by simp [hk]
      simp only [this, Bool.false_eq_true, if_neg, not_false_iff]
      rw [ih]
      cases (rs.filter (fun r => r.id == k)).getLast? with
      | some r' => rfl
      | none => simp [dictWrite, Ne.symm hk]

/-- Closed form of the dict lookup: the insights of the LAST returned
result carrying id `k`, or `[]` when no result carries `k`. -/
theorem dictGetInsights_eq (rs : List ReviewResult) (k : Nat) :
    dictGetInsights rs k =
      match (rs.filter (fun r => r.id == k)).getLast? with
      | some r => r.insights
      | none => [] := by
  unfold dictGetInsights resultsMapOf
  rw [foldl_dictWrite_apply]
  cases (rs.filter (fun r => r.id == k)).getLast? <;> rfl

/-! ## analyzer.py: `process_excel_file` -/

/-- Python `str.lower()` for the ASCII texts involved: lowercase every
character. -/
def pyLower (s : String) : String := String.mk (s.data.map Char.toLower)

/-- The row filter of analyzer.py lines 56-58:
`if len(text) < 5 or text.lower() == 'nan': continue`.
A row is kept when its text has length at least 5 and is not "nan"
case-insensitively. -/
def keepText (text : String) : Bool :=
  !(decide (text.length < 5) || pyLower text == "nan")

/-- The rows appended for one sent item (analyzer.py lines 79-96): a
single placeholder when the looked-up insight list is empty, otherwise
one row per insight, in the order received. -/
def emitRows (text : String) (insights : List ReviewInsight) : List AnalyzedRow :=
  if insights.isEmpty then
    [{ original_text := text, aspect := "other", sentiment := "neutral",
       evidence := "", rationale := "No insight detected (or skipped by LLM)" }]
  else
    insights.map fun insight =>
      { original_text := text, aspect := insight.aspect,
        sentiment := insight.sentiment, evidence := insight.evidence,
        rationale := insight.rationale }

/-- The filtered batch actually built from a chunk (analyzer.py
lines 52-60): the chunk's (index, text) pairs that survive `keepText`. -/
def batchInputOf (chunk : List (Nat × String)) : List (Nat × String) :=
  chunk.filter fun p => keepText p.2

/-- The body of one iteration of the batch loop (analyzer.py
lines 44-96), annotated with the originating row index: builds the
filtered batch, skips the LLM when it is empty (`if not batch_input:
continue`), otherwise calls the oracle once and emits rows for every
sent item by dict lookup. -/
def processChunkAnn (oracle : Oracle) (chunk : List (Nat × String)) :
    List (Nat × AnalyzedRow) :=
  let batch_input := batchInputOf chunk
  if batch_input.isEmpty then []
  else
    let batch_results := oracle batch_input
    batch_input.flatMap fun item =>
      (emitRows item.2 (dictGetInsights batch_results item.1)).map fun r => (item.1, r)

/-- `process_excel_file`, annotated with row indices: the DataFrame is
the list of its rows' texts, `List.enum` supplies the DataFrame index,
and the batch loop is the chunk decomposition. -/
def processExcelAnn (oracle : Oracle) (texts : List String) (batch_size : Nat) :
    List (Nat × AnalyzedRow) :=
  (chunkList batch_size texts.enum).flatMap (processChunkAnn oracle)

/-- analyzer.py `process_excel_file`: the returned DataFrame as the list
of appended records (the annotation indices erased). -/
def process_excel_file (oracle : Oracle) (texts : List String) (batch_size : Nat) :
    List AnalyzedRow :=
  (processExcelAnn oracle texts batch_size).map Prod.snd

/-- The batches actually sent to the LLM client: the nonempty filtered
batches, in chunk order (analyzer.py lines 62-67). -/
def sentBatches (batch_size : Nat) (texts : List String) : List (List (Nat × String)) :=
  ((chunkList batch_size texts.enum).map batchInputOf).filter fun b => !b.isEmpty

theorem emitRows_ne_nil (text : String) (insights : List ReviewInsight) :
    emitRows text insights ≠ [] := by
  unfold emitRows
  cases insights <;> simp

/-- Every id in a chunk's annotated output is the id of a sent item of
that chunk. -/
theorem processChunkAnn_fst_mem {oracle : Oracle} {chunk : List (Nat × String)}
    {x : Nat × AnalyzedRow} (hx : x ∈ processChunkAnn oracle chunk) :
    ∃ p ∈ batchInputOf chunk, x.1 = p.1 := by
  unfold processChunkAnn at hx
  by_cases hb : (batchInputOf chunk).isEmpty
  · simp [hb] at hx
  · simp only [hb, Bool.false_eq_true, if_neg, not_false_iff, List.mem_flatMap] at hx
    obtain ⟨p, hp, hxp⟩ := hx
    exact ⟨p, hp, by rcases List.mem_map.mp hxp with ⟨r, _, rfl⟩; rfl⟩

/-- Every id in the full annotated output comes from a pair of the
enumerated input that survives the row filter. -/
theorem mem_fst_processAux {oracle : Oracle} {bs : Nat} {l : List (Nat × String)}
    {x : Nat × AnalyzedRow}
    (hx : x ∈ (chunkList bs l).flatMap (processChunkAnn oracle)) :
    ∃ p ∈ l, x.1 = p.1 ∧ keepText p.2 := by
  obtain ⟨c, hc, hxc⟩ := List.mem_flatMap.mp hx
  obtain ⟨p, hp, hfst⟩ := processChunkAnn_fst_mem hxc
  obtain ⟨hpc, hkeep⟩ := List.mem_filter.mp hp
  exact ⟨p, mem_of_mem_chunkList hc hpc, hfst, hkeep⟩

/-- Within one chunk whose ids are strictly increasing, the annotated
output's id sequence is nondecreasing (rows of a sent item are emitted
together, sent items in chunk order). -/
theorem sorted_fst_flatMap_blocks {l : List (Nat × String)}
    (hl : l.Pairwise fun p q => p.1 < q.1)
    (f : Nat × String → List (Nat × AnalyzedRow))
    (hf : ∀ p, ∀ x ∈ f p, x.1 = p.1) :
    ((l.flatMap f).map Prod.fst).Sorted (· ≤ ·) := by
  induction l with
  | nil => simp [List.Sorted]
  | cons a l ih =>
    simp only [List.flatMap_cons, List.map_append]
    rw [List.Sorted, List.pairwise_append]
    refine ⟨?_, ih (List.Pairwise.sublist (List.sublist_cons_self a l) hl), ?_⟩
    · refine List.pairwise_of_forall_mem_list fun i hi j hj => ?_
      obtain ⟨x, hx, rfl⟩ := List.mem_map.mp hi
      obtain ⟨y, hy, rfl⟩ := List.mem_map.mp hj
      rw [hf a x hx, hf a y hy]
    · intro i hi j hj
      obtain ⟨x, hx, rfl⟩ := List.mem_map.mp hi
      obtain ⟨y, hy, rfl⟩ := List.mem_map.mp hj
      obtain ⟨q, hq, hyq⟩ := List.mem_flatMap.mp hy
      rw [hf a x hx, hf q y hyq]
      exact le_of_lt ((List.pairwise_cons.mp hl).1 q hq)

/-- One chunk's annotated output has a nondecreasing id sequence. -/
theorem sorted_fst_processChunkAnn (oracle : Oracle) {chunk : List (Nat × String)}
    (hc : chunk.Pairwise fun p q => p.1 < q.1) :
    ((processChunkAnn oracle chunk).map Prod.fst).Sorted (· ≤ ·) := by
  unfold processChunkAnn
  by_cases hb : (batchInputOf chunk).isEmpty
  · simp [hb, List.Sorted]
  · simp only [hb, Bool.false_eq_true, if_neg, not_false_iff]
    refine sorted_fst_flatMap_blocks (hc.filter _) _ fun p x hx => ?_
    obtain ⟨r, _, rfl⟩ := List.mem_map.mp hx
    rfl

/-- The full annotated output has a nondecreasing id sequence whenever
the enumerated input's ids are strictly increasing: output rows of an
earlier input row all precede output rows of a later input row. -/
theorem sorted_fst_processAux (oracle : Oracle) {bs : Nat}
    {l : List (Nat × String)} (hl : l.Pairwise fun p q => p.1 < q.1) :
    (((chunkList bs l).flatMap (processChunkAnn oracle)).map Prod.fst).Sorted (· ≤ ·) := by
  induction bs, l using chunkList.induct with
  | case1 n => rw [chunkList_nil]; simp [List.Sorted]
  | case2 a t => rw [chunkList_zero]; simp [List.Sorted]
  | case3 m a t ih =>
    rw [chunkList_cons (m + 1) (a :: t) (by omega) (by simp)]
    simp only [List.flatMap_cons, List.map_append]
    rw [List.Sorted, List.pairwise_append]
    have hsplit := List.take_append_drop (m + 1) (a :: t)
    have hpw : (List.take (m + 1) (a :: t) ++ List.drop (m + 1) (a :: t)).Pairwise
        fun p q => p.1 < q.1 := by rw [hsplit]; exact hl
    have hcross := (List.pairwise_append.mp hpw).2.2
    refine ⟨sorted_fst_processChunkAnn oracle
      (List.Pairwise.sublist (List.take_sublist _ _) hl),
      ih (List.Pairwise.sublist (List.drop_sublist _ _) hl), ?_⟩
    intro i hi j hj
    obtain ⟨x, hx, rfl⟩ := List.mem_map.mp hi
    obtain ⟨y, hy, rfl⟩ := List.mem_map.mp hj
    obtain ⟨p, hp, hxp⟩ := processChunkAnn_fst_mem hx
    obtain ⟨q, hq, hyq, _⟩ := mem_fst_processAux hy
    rw [hxp, hyq]
    exact le_of_lt (hcross p (List.mem_of_mem_filter hp) q hq)

/-- The enumerated rows have strictly increasing indices. -/
theorem enum_pairwise_lt (l : List String) :
    l.enum.Pairwise fun p q => p.1 < q.1 := by
  have h := List.pairwise_lt_range l.length
  rw [← List.enum_map_fst l, List.pairwise_map] at h
  exact h

/-- In a list of pairs with strictly increasing first components,
selecting by first component `i` when `(i, s)` is a member keeps
exactly the block produced for `(i, s)`. -/
theorem filter_fst_flatMap_single {l : List (Nat × String)}
    (hl : l.Pairwise fun p q => p.1 < q.1)
    (f : Nat × String → List (Nat × AnalyzedRow))
    (hf : ∀ p, ∀ x ∈ f p, x.1 = p.1)
    {i : Nat} {s : String} (hmem : (i, s) ∈ l) :
    (l.flatMap f).filter (fun x => x.1 == i) = f (i, s) := by
  induction l with
  | nil => cases hmem
  | cons a l ih =>
    simp only [List.flatMap_cons, List.filter_append]
    rcases List.mem_cons.mp hmem with heq | hmem'
    · subst heq
      have h1 : (f (i, s)).filter (fun x => x.1 == i) = f (i, s) :=
        List.filter_eq_self.mpr fun x hx => by simp [hf _ x hx]
      have h2 : (l.flatMap f).filter (fun x => x.1 == i) = [] := by
        refine List.filter_eq_nil_iff.mpr fun x hx => ?_
        obtain ⟨q, hq, hxq⟩ := List.mem_flatMap.mp hx
        have : i < q.1 := (List.pairwise_cons.mp hl).1 q hq
        simp [hf q x hxq]
        omega
      rw [h1, h2, List.append_nil]
    · have h1 : (f a).filter (fun x => x.1 == i) = [] := by
        refine List.filter_eq_nil_iff.mpr fun x hx => ?_
        have : a.1 < i := (List.pairwise_cons.mp hl).1 (i, s) hmem'
        simp [hf a x hx]
        omega
      rw [h1, ih (List.pairwise_cons.mp hl).2 hmem', List.nil_append]

/-- Selecting the output rows of a sent item `(i, s)` from its chunk's
output yields exactly the rows emitted for its dict lookup. -/
theorem processChunkAnn_filter_eq (oracle : Oracle) {chunk : List (Nat × String)}
    (hc : chunk.Pairwise fun p q => p.1 < q.1)
    {i : Nat} {s : String} (hmem : (i, s) ∈ batchInputOf chunk) :
    ((processChunkAnn oracle chunk).filter (fun x => x.1 == i)).map Prod.snd
      = emitRows s (dictGetInsights (oracle (batchInputOf chunk)) i) := by
  unfold processChunkAnn
  have hne : (batchInputOf chunk).isEmpty = false := by
    cases h : batchInputOf chunk with
    | nil => rw [h] at hmem; cases hmem
    | cons b bs => rfl
  simp only [hne, Bool.false_eq_true, if_neg, not_false_iff]
  have hbpw : (batchInputOf chunk).Pairwise (fun p q => p.1 < q.1) := hc.filter _
  rw [filter_fst_flatMap_single hbpw _
    (fun p x hx => by obtain ⟨r, _, rfl⟩ := List.mem_map.mp hx; rfl) hmem]
  rw [List.map_map]
  simp

/-- Selecting the output rows of a surviving input row from the whole
run: there is a sent batch holding `(i, s)`, and the rows carrying id
`i` are exactly those emitted from the oracle answer for that batch. -/
theorem processAux_filter_eq (oracle : Oracle) {bs : Nat} (hbs : bs ≠ 0)
    {l : List (Nat × String)} (hl : l.Pairwise fun p q => p.1 < q.1)
    {i : Nat} {s : String} (hmem : (i, s) ∈ l) (hk : keepText s) :
    ∃ b ∈ (chunkList bs l).map batchInputOf, (i, s) ∈ b ∧
      (((chunkList bs l).flatMap (processChunkAnn oracle)).filter
          (fun x => x.1 == i)).map Prod.snd
        = emitRows s (dictGetInsights (oracle b) i) := by
  induction bs, l using chunkList.induct with
  | case1 n => cases hmem
  | case2 a t => exact absurd rfl hbs
  | case3 m a t ih =>
    rw [chunkList_cons (m + 1) (a :: t) (by omega) (by simp)]
    simp only [List.flatMap_cons, List.filter_append, List.map_cons]
    have hsplit := List.take_append_drop (m + 1) (a :: t)
    have hpw : (List.take (m + 1) (a :: t) ++ List.drop (m + 1) (a :: t)).Pairwise
        fun p q => p.1 < q.1 := by rw [hsplit]; exact hl
    have hcross := (List.pairwise_append.mp hpw).2.2
    have hmem2 : (i, s) ∈ List.take (m + 1) (a :: t) ++ List.drop (m + 1) (a :: t) := by
      rw [hsplit]; exact hmem
    rcases List.mem_append.mp hmem2 with htk | hdp
    · -- the row lives in the first chunk
      have hrest : ((chunkList (m + 1) (List.drop (m + 1) (a :: t))).flatMap
          (processChunkAnn oracle)).filter (fun x => x.1 == i) = [] := by
        refine List.filter_eq_nil_iff.mpr fun x hx => ?_
        obtain ⟨q, hq, hxq, _⟩ := mem_fst_processAux hx
        have : i < q.1 := hcross (i, s) htk q hq
        simp [hxq]
        omega
      refine ⟨batchInputOf (List.take (m + 1) (a :: t)), List.mem_cons_self _ _,
        List.mem_filter.mpr ⟨htk, hk⟩, ?_⟩
      rw [hrest, List.append_nil]
      exact processChunkAnn_filter_eq oracle
        (List.Pairwise.sublist (List.take_sublist _ _) hl)
        (List.mem_filter.mpr ⟨htk, hk⟩)
    · -- the row lives in a later chunk
      have hfirst : (processChunkAnn oracle (List.take (m + 1) (a :: t))).filter
          (fun x => x.1 == i) = [] := by
        refine List.filter_eq_nil_iff.mpr fun x hx => ?_
        obtain ⟨p, hp, hxp⟩ := processChunkAnn_fst_mem hx
        have : p.1 < i := hcross p (List.mem_of_mem_filter hp) (i, s) hdp
        simp [hxp]
        omega
      obtain ⟨b, hb, hbmem, hbeq⟩ :=
        ih (by omega) (List.Pairwise.sublist (List.drop_sublist _ _) hl) hdp
      refine ⟨b, List.mem_cons_of_mem _ hb, hbmem, ?_⟩
      rw [hfirst, List.nil_append, hbeq]

/-- Results whose id is not among the batch's sent ids never change a
lookup for a sent id: pruning them from the oracle answer leaves every
dict lookup of a sent id unchanged. -/
theorem dictGetInsights_filter_of_mem (rs : List ReviewResult)
    (q : ReviewResult → Bool) (k : Nat) (hq : ∀ r : ReviewResult, r.id = k → q r) :
    dictGetInsights (rs.filter q) k = dictGetInsights rs k := by
  rw [dictGetInsights_eq, dictGetInsights_eq, List.filter_filter]
  have : (rs.filter fun r => r.id == k && q r) = rs.filter fun r => r.id == k := by
    refine List.filter_congr fun r _ => ?_
    by_cases h : r.id = k
    · simp [h, hq r h]
    · simp [h]
  rw [this]

/-- Pruning oracle results down to the ids actually sent does not change
a chunk's output: the loop looks up only sent ids. -/
theorem processChunkAnn_prune (oracle : Oracle) (chunk : List (Nat × String)) :
    processChunkAnn
        (fun b => (oracle b).filter fun r => b.any fun p => p.1 == r.id) chunk
      = processChunkAnn oracle chunk := by
  unfold processChunkAnn
  by_cases hb : (batchInputOf chunk).isEmpty
  · simp [hb]
  · simp only [hb, Bool.false_eq_true, if_neg, not_false_iff]
    refine List.flatMap_congr fun item hitem => ?_
    rw [dictGetInsights_filter_of_mem]
    intro r hr
    exact List.any_eq_true.mpr ⟨item, hitem, by simp [hr]⟩

/-! ## app.py: `compare_and_merge_runs` -/

/-- The comparison loop of app.py lines 132-139: `for i in
range(total)`, breaking as soon as `i >= len(df2)`, counting the
index-aligned pairs whose aspect and sentiment both agree. -/
def countConsistent : List AnalyzedRow → List AnalyzedRow → Nat
  | [], _ => 0
  | _ :: _, [] => 0
  | r1 :: t1, r2 :: t2 =>
    (if r1.aspect = r2.aspect ∧ r1.sentiment = r2.sentiment then 1 else 0)
      + countConsistent t1 t2

/-- The score returned by app.py `compare_and_merge_runs` (line 140):
`consistent / total * 100` with `total = len(df1)`, and `0` when
`total` is `0`. -/
def compare_and_merge_score (run1 run2 : List AnalyzedRow) : ℚ :=
  let total := run1.length
  let consistent := countConsistent run1 run2
  if total > 0 then (consistent : ℚ) / total * 100 else 0

/-- The matching predicate of app.py line 134. -/
def pairMatches (p : AnalyzedRow × AnalyzedRow) : Bool :=
  p.1.aspect == p.2.aspect && p.1.sentiment == p.2.sentiment

/-- The loop counts exactly the matching pairs of the index-aligned zip:
comparison stops at the shorter run's length. -/
theorem countConsistent_eq_countP_zip (run1 run2 : List AnalyzedRow) :
    countConsistent run1 run2 = (run1.zip run2).countP pairMatches := by
  induction run1 generalizing run2 with
  | nil => cases run2 <;> rfl
  | cons r1 t1 ih =>
    cases run2 with
    | nil => rfl
    | cons r2 t2 =>
      simp only [countConsistent, List.zip_cons_cons, List.countP_cons, ih t2,
        pairMatches]
      by_cases h1 : r1.aspect = r2.aspect <;> by_cases h2 : r1.sentiment = r2.sentiment <;>
        simp [h1, h2] <;> omega

theorem countConsistent_self (l : List AnalyzedRow) :
    countConsistent l l = l.length := by
  induction l with
  | nil => rfl
  | cons r t ih => simp [countConsistent, ih]; omega

/-! ## llm_engine.py: `analyze_review_batch` -/

/-- The `message` object read from `completion.choices[0].message`
(llm_engine.py lines 53-68): its `refusal` and `parsed` attributes. -/
structure LLMMessage where
  refusal : Option String
  parsed : Option BatchResponse

/-- Python truthiness of `message.refusal` (llm_engine.py line 56):
`None` and the empty string are falsy. -/
def refusalTruthy (m : LLMMessage) : Bool :=
  match m.refusal with
  | some s => s ≠ ""
  | none => false

/-- The underlying API call (`client.beta.chat.completions.parse` plus
attribute access): it either produces a message or raises. -/
def ApiCall : Type := List (Nat × String) → Except String LLMMessage

/-- The body of the `try` block of llm_engine.py lines 34-68: call the
API, return `[]` on refusal, the parsed reviews when present, and `[]`
when no parsed result exists.  An exception escapes as `.error`. -/
def analyzeTryBody (apiCall : ApiCall) (batch : List (Nat × String)) :
    Except String (List ReviewResult) := do
  let message ← apiCall batch
  if refusalTruthy message then
    return []
  else
    match message.parsed with
    | some resp => return resp.reviews
    | none => return []

/-- llm_engine.py `analyze_review_batch`: the `try`/`except` wrapper —
any exception raised by the body is caught, logged, and turned into the
empty result list; the caller always receives a normal return. -/
def analyze_review_batch (apiCall : ApiCall) (batch : List (Nat × String)) :
    Except String (List ReviewResult) :=
  match analyzeTryBody apiCall batch with
  | Except.ok l => Except.ok l
  | Except.error _ => Except.ok []

/-! ## validator.py: complexity tags (a model of Python `re.search` with
word boundaries, over ASCII text) -/

/-- A regex word character (`\w` for the ASCII texts involved):
letters, digits, underscore. -/
def isWordChar (c : Char) : Bool := c.isAlphanum || c == '_'

/-- Whether position `p` of the character list holds a word character
(out-of-range counts as non-word, like the edges of the string). -/
def wordCharAt (cs : List Char) (p : Nat) : Bool :=
  match cs[p]? with
  | some c => isWordChar c
  | none => false

/-- A `\b` word boundary at position `p` (between `p - 1` and `p`). -/
def boundaryAt (cs : List Char) (p : Nat) : Bool :=
  (if p = 0 then false else wordCharAt cs (p - 1)) != wordCharAt cs p

/-- The literal word `w` occurs at position `p`. -/
def literalAt (cs w : List Char) (p : Nat) : Bool :=
  (cs.drop p).take w.length == w

/-- `re.search(r"\b(w1|w2|...)\b", s)` for a list of literal
alternatives: some alternative occurs somewhere with word boundaries on
both sides. -/
def searchWholeWord (words : List (List Char)) (s : String) : Bool :=
  (List.range (s.data.length + 1)).any fun p =>
    words.any fun w =>
      literalAt s.data w p && boundaryAt s.data p && boundaryAt s.data (p + w.length)

/-- The apostrophe character (codepoint 39). -/
def apos : Char := Char.ofNat 39

/-- The alternatives of validator.py line 16:
`\b(not|no|never|n't|cannot)\b`. -/
def negationWords : List (List Char) :=
  [['n', 'o', 't'], ['n', 'o'], ['n', 'e', 'v', 'e', 'r'],
   ['n', apos, 't'], ['c', 'a', 'n', 'n', 'o', 't']]

/-- The alternatives of validator.py line 20:
`\b(but|however|although|though|while)\b`. -/
def contrastWords : List (List Char) :=
  [['b', 'u', 't'], ['h', 'o', 'w', 'e', 'v', 'e', 'r'],
   ['a', 'l', 't', 'h', 'o', 'u', 'g', 'h'],
   ['t', 'h', 'o', 'u', 'g', 'h'], ['w', 'h', 'i', 'l', 'e']]

/-- validator.py `detect_complexity_tags`: negation and contrast are
whole-word regex matches on the lowercased text, "Long Text" needs more
than 150 characters, and "Simple" is the fallback when no tag fired. -/
def detect_complexity_tags (text : String) : List String :=
  let text_lower := pyLower text
  let tags1 := if searchWholeWord negationWords text_lower then ["Negation"] else []
  let tags2 := tags1 ++ (if searchWholeWord contrastWords text_lower then ["Mixed/Contrast"] else [])
  let tags3 := tags2 ++ (if text.length > 150 then ["Long Text"] else [])
  if tags3.isEmpty then ["Simple"] else tags3

/-! ## validator.py: gold-standard validation -/

/-- One entry of the gold standard JSON, with the fields the validator
reads (`item.get('text', '')`, `item.get('label_aspect', 'other')`,
`item.get('label_sentiment', 'neutral')` already applied). -/
structure GoldItem where
  text : String
  label_aspect : String
  label_sentiment : String
deriving DecidableEq, Repr

/-- validator.py `_get_predictions`: slice the batch input by the fixed
`BATCH_SIZE`, call the LLM client on every chunk, and write each
returned result into `predictions_map` keyed by its id (later writes
win). -/
def getPredictionsMap (oracle : Oracle) (batch_input : List (Nat × String))
    (batchSize : Nat) : Nat → Option (List ReviewInsight) :=
  (chunkList batchSize batch_input).foldl
    (fun m chunk => (oracle chunk).foldl dictWrite m) (fun _ => none)

/-- config.py `BATCH_SIZE = 4`. -/
def BATCH_SIZE : Nat := 4

/-- The first-insight (aspect, sentiment) tuple of validator.py
lines 72-73, with `("none", "none")` for a missing or empty insight
list. -/
def firstTuple (insights : List ReviewInsight) : String × String :=
  match insights with
  | [] => ("none", "none")
  | insight :: _ => (insight.aspect, insight.sentiment)

/-- Python `round` ties-to-even on an exact rational. -/
def roundHalfEven (q : ℚ) : ℤ :=
  let f := ⌊q⌋
  if q - f < 1 / 2 then f
  else if 1 / 2 < q - f then f + 1
  else if f % 2 = 0 then f else f + 1

/-- Python `round(x, 2)` on an exact rational. -/
def pyRound2 (q : ℚ) : ℚ := (roundHalfEven (q * 100) : ℚ) / 100

/-- The dual-mode consistency computation of validator.py lines 67-81:
count the gold indices whose first-insight tuples agree between the two
passes, divide by the number of gold samples, and round to two
decimals; `0.0` when the gold set is empty. -/
def dualConsistencyScore (n : Nat) (p1 p2 : Nat → Option (List ReviewInsight)) : ℚ :=
  let consistent_count := (List.range n).countP fun idx =>
    firstTuple ((p1 idx).getD []) == firstTuple ((p2 idx).getD [])
  if n > 0 then pyRound2 ((consistent_count : ℚ) / n * 100) else 0

/-- The `batch_input` built by validator.py lines 47-56: synthetic ids
`0, 1, ...` paired with each gold item's text. -/
def goldBatchInput (gold : List GoldItem) : List (Nat × String) :=
  gold.enum.map fun p => (p.1, p.2.text)

/-- `y_true_aspect` of validator.py line 98. -/
def yTrueAspect (gold : List GoldItem) : List String :=
  gold.map fun item => item.label_aspect

/-- `y_pred_aspect` of validator.py lines 92-99: the first predicted
insight's aspect, defaulting to `other` when a sample got none. -/
def yPredAspect (predictions : Nat → Option (List ReviewInsight)) (n : Nat) :
    List String :=
  (List.range n).map fun idx =>
    match (predictions idx).getD [] with
    | [] => "other"
    | insight :: _ => insight.aspect

/-- The result of `run_gold_standard_validation`: either a metrics
object or a dictionary carrying a single `error` field. -/
inductive ValidationResult where
  | metricsResult (accuracy precisionScore recallScore f1 : ℚ)
      (consistency : Option ℚ)
  | errorResult (error : String)

/-- The core metrics numbers produced inside the `try` block of
validator.py lines 122-139 by sklearn; the sklearn calls are outside
this repository, so they are an abstract fallible computation from the
true and predicted aspect label lists, raising `.error` on failure
(e.g. on an empty label set). -/
def SklearnCalc : Type := List String → List String → Except String (ℚ × ℚ × ℚ × ℚ)

/-- validator.py `run_gold_standard_validation`: load the gold JSON
(abstracted as a fallible `loadResult`), build `batch_input` with
synthetic ids `0, 1, ...`, run pass 1 (and pass 2 in dual mode) through
`_get_predictions`, compute the dual consistency, take the first
insight (defaulting to `other`/`neutral`) as the predicted label of
each sample, and wrap the sklearn metrics computation in `try`/`except`
so that any error becomes an `errorResult`.  The outer `Except` layer
is the channel for exceptions the function itself would propagate. -/
def run_gold_standard_validation (loadResult : Except String (List GoldItem))
    (metricsCalc : SklearnCalc) (oracle1 oracle2 : Oracle) (dualMode : Bool) :
    Except String ValidationResult :=
  match loadResult with
  | Except.error e => Except.ok (ValidationResult.errorResult ("Failed to load JSON: " ++ e))
  | Except.ok gold_data =>
    match metricsCalc (yTrueAspect gold_data)
        (yPredAspect (getPredictionsMap oracle1 (goldBatchInput gold_data) BATCH_SIZE)
          gold_data.length) with
    | Except.ok (acc, prec, rec, f1) =>
      Except.ok (ValidationResult.metricsResult (pyRound2 (acc * 100))
        (pyRound2 (prec * 100)) (pyRound2 (rec * 100)) (pyRound2 (f1 * 100))
        (if dualMode then
          some (dualConsistencyScore gold_data.length
            (getPredictionsMap oracle1 (goldBatchInput gold_data) BATCH_SIZE)
            (getPredictionsMap oracle2 (goldBatchInput gold_data) BATCH_SIZE))
         else none))
    | Except.error e => Except.ok (ValidationResult.errorResult e)

/-- Folding the per-chunk result folds equals one fold over the
concatenated results. -/
theorem foldl_chunks_eq_foldl_flatMap (oracle : Oracle)
    (chunks : List (List (Nat × String))) (m : Nat → Option (List ReviewInsight)) :
    chunks.foldl (fun m chunk => (oracle chunk).foldl dictWrite m) m
      = (chunks.flatMap oracle).foldl dictWrite m := by
  induction chunks generalizing m with
  | nil => rfl
  | cons c cs ih => simp only [List.foldl_cons, List.flatMap_cons, List.foldl_append, ih]

/-- Closed form of `_get_predictions`: the map sends `k` to the insights
of the last result with id `k` over all chunk answers in order, and
holds nothing for ids no result carried. -/
theorem getPredictionsMap_eq (oracle : Oracle) (batch_input : List (Nat × String))
    (batchSize : Nat) (k : Nat) :
    getPredictionsMap oracle batch_input batchSize k
      = match (((chunkList batchSize batch_input).flatMap oracle).filter
            fun r => r.id == k).getLast? with
        | some r => some r.insights
        | none => none := by
  unfold getPredictionsMap
  rw [foldl_chunks_eq_foldl_flatMap, foldl_dictWrite_apply]

/-- The insights the prediction map ends up holding for gold index
`idx`: those of the last returned result with that id, else `[]`. -/
def lastReturnedInsights (oracle : Oracle) (gold : List GoldItem) (idx : Nat) :
    List ReviewInsight :=
  match (((chunkList BATCH_SIZE (goldBatchInput gold)).flatMap oracle).filter
      fun r => r.id == idx).getLast? with
  | some r => r.insights
  | none => []

/-- The dual-run consistency percentage as the spec words it: the
fraction of gold samples, indexed by their assigned position id, whose
first-insight (aspect, sentiment) tuples agree across the two passes,
times 100, rounded to two decimals; a sample with no predicted insights
in a pass contributes ("none", "none"); 0 when the gold set is empty. -/
def specDualConsistency (oracle1 oracle2 : Oracle) (gold : List GoldItem) : ℚ :=
  if gold.length = 0 then 0
  else pyRound2 ((((List.range gold.length).countP fun idx =>
    firstTuple (lastReturnedInsights oracle1 gold idx)
      == firstTuple (lastReturnedInsights oracle2 gold idx) : Nat) : ℚ)
    / gold.length * 100)

theorem getD_getPredictionsMap (oracle : Oracle) (gold : List GoldItem) (idx : Nat) :
    (getPredictionsMap oracle (goldBatchInput gold) BATCH_SIZE idx).getD []
      = lastReturnedInsights oracle gold idx := by
  rw [getPredictionsMap_eq]
  unfold lastReturnedInsights
  cases (((chunkList BATCH_SIZE (goldBatchInput gold)).flatMap oracle).filter
      fun r => r.id == idx).getLast? <;> rfl

/-- The code's dual-mode consistency equals the spec-worded closed
form. -/
theorem dualConsistencyScore_eq_spec (oracle1 oracle2 : Oracle) (gold : List GoldItem) :
    dualConsistencyScore gold.length
        (getPredictionsMap oracle1 (goldBatchInput gold) BATCH_SIZE)
        (getPredictionsMap oracle2 (goldBatchInput gold) BATCH_SIZE)
      = specDualConsistency oracle1 oracle2 gold := by
  unfold dualConsistencyScore specDualConsistency
  have hcount : ((List.range gold.length).countP fun idx =>
      firstTuple ((getPredictionsMap oracle1 (goldBatchInput gold) BATCH_SIZE idx).getD [])
        == firstTuple ((getPredictionsMap oracle2 (goldBatchInput gold) BATCH_SIZE idx).getD []))
      = (List.range gold.length).countP fun idx =>
        firstTuple (lastReturnedInsights oracle1 gold idx)
          == firstTuple (lastReturnedInsights oracle2 gold idx) := by
    refine List.countP_congr fun idx _ => ?_
    rw [getD_getPredictionsMap, getD_getPredictionsMap]
  rw [hcount]
  by_cases h : gold.length = 0
  · simp [h]
  · have : gold.length > 0 := Nat.pos_of_ne_zero h
    simp [h, this]

/-! ## The ordering of the output (spec side) -/

/-- The output ordering as the spec words it: by chunk order, then by
original row order within the chunk, then by insight order within a
row. -/
def specOrderedOutput (oracle : Oracle) (texts : List String) (batch_size : Nat) :
    List (Nat × AnalyzedRow) :=
  ((chunkList batch_size texts.enum).map fun chunk =>
    (batchInputOf chunk).flatMap fun item =>
      (emitRows item.2 (dictGetInsights (oracle (batchInputOf chunk)) item.1)).map
        fun r => (item.1, r)).flatten

/-- The orchestration loop produces exactly the spec-ordered output:
the empty-batch `continue` changes nothing because an empty batch
contributes no rows either way. -/
theorem processExcelAnn_eq_specOrdered (oracle : Oracle) (texts : List String)
    (batch_size : Nat) :
    processExcelAnn oracle texts batch_size = specOrderedOutput oracle texts batch_size := by
  unfold processExcelAnn specOrderedOutput
  rw [show ∀ (L : List (List (Nat × String)))
      (g : List (Nat × String) → List (Nat × AnalyzedRow)), (L.map g).flatten = L.flatMap g
    from fun L g => rfl]
  refine List.flatMap_congr fun chunk _ => ?_
  unfold processChunkAnn
  by_cases hb : (batchInputOf chunk).isEmpty
  · rw [List.isEmpty_iff] at hb
    simp [hb]
  · simp only [hb, Bool.false_eq_true, if_neg, not_false_iff]

/-! ## Claim theorems -/

/-- **C5**: for every batch, if the underlying LLM call raises any
error, or the model refuses, or no parsed result is present, the batch
analysis client returns an empty sequence of results; in every case it
returns normally and never propagates an exception to its caller. -/
theorem C5_batch_client_never_raises (apiCall : ApiCall) (batch : List (Nat × String)) :
    (∃ l, analyze_review_batch apiCall batch = Except.ok l) ∧
    (∀ e, apiCall batch = Except.error e →
      analyze_review_batch apiCall batch = Except.ok []) ∧
    (∀ m, apiCall batch = Except.ok m → refusalTruthy m = true →
      analyze_review_batch apiCall batch = Except.ok []) ∧
    (∀ m, apiCall batch = Except.ok m → refusalTruthy m = false → m.parsed = none →
      analyze_review_batch apiCall batch = Except.ok []) := by
  refine ⟨?_, ?_, ?_, ?_⟩
  · unfold analyze_review_batch
    cases analyzeTryBody apiCall batch with
    | ok l => exact ⟨l, rfl⟩
    | error e => exact ⟨[], rfl⟩
  · intro e he
    unfold analyze_review_batch analyzeTryBody
    rw [he]
    rfl
  · intro m hm hr
    unfold analyze_review_batch analyzeTryBody
    rw [hm]
    simp only [bind, Except.bind, hr, if_pos]
    rfl
  · intro m hm hr hp
    unfold analyze_review_batch analyzeTryBody
    rw [hm]
    simp only [bind, Except.bind, hr, Bool.false_eq_true, if_neg, not_false_iff, hp]
    rfl

/-- **C5 witness**: a failing API call at a concrete batch yields the
empty result list, returned normally. -/
theorem C5_batch_client_never_raises_witness :
    analyze_review_batch (fun _ => Except.error "network down")
      [(0, "great product")] = Except.ok [] :=
  (C5_batch_client_never_raises (fun _ => Except.error "network down")
    [(0, "great product")]).2.1 "network down" rfl

/-- **C6 counterexample**: the claim says any text containing "not"
gets the "Negation" tag, but the code requires a whole-word match:
"nothing" contains "not" yet is tagged exactly ["Simple"]. -/
theorem C6_counterexample :
    "not".data <:+: "nothing".data ∧
    detect_complexity_tags "nothing" = ["Simple"] ∧
    "Negation" ∉ detect_complexity_tags "nothing" := by
  refine ⟨by decide, by decide, by decide⟩

/-- **C6 (amended)**: the tagger yields "Negation" when the lowercased
text contains "not" (or another negation word) as a whole word,
"Mixed/Contrast" when it contains "however" (or another contrast word)
as a whole word, "Long Text" when the text has at least 151 characters,
and exactly ["Simple"] when none of those conditions hold; a text can
carry multiple tags, e.g. a negation plus a contrast. -/
theorem C6_complexity_tags :
    (∀ text : String,
      (searchWholeWord negationWords (pyLower text) = true →
        "Negation" ∈ detect_complexity_tags text) ∧
      (searchWholeWord contrastWords (pyLower text) = true →
        "Mixed/Contrast" ∈ detect_complexity_tags text) ∧
      (151 ≤ text.length → "Long Text" ∈ detect_complexity_tags text) ∧
      (searchWholeWord negationWords (pyLower text) = false →
        searchWholeWord contrastWords (pyLower text) = false →
        text.length ≤ 150 → detect_complexity_tags text = ["Simple"])) ∧
    detect_complexity_tags "this is not great but fine"
      = ["Negation", "Mixed/Contrast"] := by
  constructor
  · intro text
    unfold detect_complexity_tags
    refine ⟨fun h1 => ?_, fun h2 => ?_, fun h3 => ?_, fun h1 h2 h3 => ?_⟩
    · by_cases h2 : searchWholeWord contrastWords (pyLower text) <;>
        by_cases h3 : text.length > 150 <;> simp [h1, h2, h3]
    · by_cases h1 : searchWholeWord negationWords (pyLower text) <;>
        by_cases h3 : text.length > 150 <;> simp [h1, h2, h3]
    · have h3' : text.length > 150 := by omega
      by_cases h1 : searchWholeWord negationWords (pyLower text) <;>
        by_cases h2 : searchWholeWord contrastWords (pyLower text) <;>
          simp [h1, h2, h3']
    · have h3' : ¬ (text.length > 150) := by omega
      simp [h1, h2, h3']
  · decide

/-- **C6 witness**: the amended theorem at concrete inputs: a whole-word
negation is tagged, and a text with none of the conditions is exactly
["Simple"]. -/
theorem C6_complexity_tags_witness :
    "Negation" ∈ detect_complexity_tags "it does not work" ∧
    detect_complexity_tags "all fine here" = ["Simple"] :=
  ⟨(C6_complexity_tags.1 "it does not work").1 (by decide),
   (C6_complexity_tags.1 "all fine here").2.2.2 (by decide) (by decide) (by decide)⟩

/-- A concrete positive-quality row used in concrete comparisons. -/
def rowQualityPos : AnalyzedRow :=
  { original_text := "great quality", aspect := "product_quality",
    sentiment := "positive", evidence := "great", rationale := "praise" }

/-- A concrete negative-delivery row used in concrete comparisons. -/
def rowDeliveryNeg : AnalyzedRow :=
  { original_text := "slow delivery", aspect := "delivery_shipping",
    sentiment := "negative", evidence := "slow", rationale := "complaint" }

/-- Like `rowQualityPos` but classified under a different aspect. -/
def rowQualityOther : AnalyzedRow :=
  { original_text := "great quality", aspect := "other",
    sentiment := "positive", evidence := "great", rationale := "praise" }

/-- **C2 counterexample**: the claim divides by
`min(len(run1), len(run2))`, but the code divides by `len(run1)`.  With
a two-row first run and a one-row second run whose single aligned pair
matches, the claim's formula gives 100 while the code returns 50. -/
theorem C2_counterexample :
    compare_and_merge_score [rowQualityPos, rowDeliveryNeg] [rowQualityPos]
      ≠ ((([rowQualityPos, rowDeliveryNeg].zip [rowQualityPos]).countP pairMatches : ℚ)
          / (min [rowQualityPos, rowDeliveryNeg].length [rowQualityPos].length) * 100) := by
  have h1 : compare_and_merge_score [rowQualityPos, rowDeliveryNeg] [rowQualityPos]
      = (1 : ℚ) / 2 * 100 := by
    have hc : countConsistent [rowQualityPos, rowDeliveryNeg] [rowQualityPos] = 1 := by decide
    simp [compare_and_merge_score, hc]
  have h2 : (([rowQualityPos, rowDeliveryNeg].zip [rowQualityPos]).countP pairMatches) = 1 := by
    decide
  rw [h1, h2]
  norm_num

/-- **C2 (amended)**: the returned score equals the count of
index-aligned pairs whose aspect and sentiment both match, divided by
`len(run1)` (not the minimum), times 100, and 0 when `run1` is empty;
pairs are compared only up to the shorter run's length (the zip), so
excess rows in the longer run are unscored. -/
theorem C2_score_formula (run1 run2 : List AnalyzedRow) :
    compare_and_merge_score run1 run2
      = if run1.length = 0 then 0
        else ((run1.zip run2).countP pairMatches : ℚ) / run1.length * 100 := by
  unfold compare_and_merge_score
  rw [countConsistent_eq_countP_zip]
  by_cases h : run1.length = 0
  · simp [h]
  · have : run1.length > 0 := Nat.pos_of_ne_zero h
    simp [h, this]

/-- When the two runs agree element-wise on aspect and sentiment, every
aligned pair matches. -/
theorem countConsistent_of_map_eq (run1 run2 : List AnalyzedRow)
    (h : run1.map (fun r => (r.aspect, r.sentiment))
        = run2.map (fun r => (r.aspect, r.sentiment))) :
    countConsistent run1 run2 = run1.length := by
  induction run1 generalizing run2 with
  | nil => cases run2 with
    | nil => rfl
    | cons r2 t2 => cases h
  | cons r1 t1 ih =>
    cases run2 with
    | nil => cases h
    | cons r2 t2 =>
      simp only [List.map_cons, List.cons.injEq, Prod.mk.injEq] at h
      obtain ⟨⟨ha, hs⟩, ht⟩ := h
      simp [countConsistent, ha, hs, ih t2 ht]
      omega

/-- **C7 counterexample**: the claim asserts score 100 whenever the two
runs are element-wise identical on aspect and sentiment, and also score
0 when no rows are compared — two empty runs satisfy both descriptions,
and the code returns 0, not 100. -/
theorem C7_counterexample :
    (([] : List AnalyzedRow).map (fun r => (r.aspect, r.sentiment))
        = ([] : List AnalyzedRow).map (fun r => (r.aspect, r.sentiment))) ∧
    compare_and_merge_score [] [] = 0 ∧
    compare_and_merge_score [] [] ≠ 100 := by
  refine ⟨rfl, by simp [compare_and_merge_score], by simp [compare_and_merge_score]⟩

/-- **C7 (amended)**: the score is 100 when the two runs are nonempty
and element-wise identical on aspect and sentiment (in particular two
identical sequences of length 5 score 100 and sequences differing only
in row 3's aspect score 80), 0 when every aligned pair differs, and 0
when the number of rows compared is 0 — never a division error. -/
theorem C7_score_extremes :
    (∀ run1 run2 : List AnalyzedRow, run1 ≠ [] →
      run1.map (fun r => (r.aspect, r.sentiment))
          = run2.map (fun r => (r.aspect, r.sentiment)) →
      compare_and_merge_score run1 run2 = 100) ∧
    compare_and_merge_score
        [rowQualityPos, rowDeliveryNeg, rowQualityPos, rowQualityPos, rowDeliveryNeg]
        [rowQualityPos, rowDeliveryNeg, rowQualityPos, rowQualityPos, rowDeliveryNeg]
      = 100 ∧
    compare_and_merge_score
        [rowQualityPos, rowDeliveryNeg, rowQualityPos, rowQualityPos, rowDeliveryNeg]
        [rowQualityPos, rowDeliveryNeg, rowQualityPos, rowQualityOther, rowDeliveryNeg]
      = 80 ∧
    (∀ run1 run2 : List AnalyzedRow,
      (∀ p ∈ run1.zip run2, pairMatches p = false) →
      compare_and_merge_score run1 run2 = 0) ∧
    (∀ run1 run2 : List AnalyzedRow, min run1.length run2.length = 0 →
      compare_and_merge_score run1 run2 = 0) := by
  refine ⟨?_, ?_, ?_, ?_, ?_⟩
  · intro run1 run2 hne h
    unfold compare_and_merge_score
    rw [countConsistent_of_map_eq run1 run2 h]
    have hpos : 0 < run1.length := List.length_pos.mpr hne
    have hQ : (run1.length : ℚ) ≠ 0 := by positivity
    simp only [hpos, if_pos]
    field_simp
  · have hc : countConsistent
        [rowQualityPos, rowDeliveryNeg, rowQualityPos, rowQualityPos, rowDeliveryNeg]
        [rowQualityPos, rowDeliveryNeg, rowQualityPos, rowQualityPos, rowDeliveryNeg]
        = 5 := by decide
    simp [compare_and_merge_score, hc]
  · have hc : countConsistent
        [rowQualityPos, rowDeliveryNeg, rowQualityPos, rowQualityPos, rowDeliveryNeg]
        [rowQualityPos, rowDeliveryNeg, rowQualityPos, rowQualityOther, rowDeliveryNeg]
        = 4 := by decide
    simp [compare_and_merge_score, hc]
    norm_num
  · intro run1 run2 h
    unfold compare_and_merge_score
    rw [countConsistent_eq_countP_zip]
    have hz : (run1.zip run2).countP pairMatches = 0 :=
      List.countP_eq_zero.mpr (by simpa using h)
    rw [hz]
    simp
  · intro run1 run2 h
    unfold compare_and_merge_score
    rcases Nat.min_eq_zero_iff.mp h with h1 | h2
    · simp [h1]
    · have : run2 = [] := List.length_eq_zero.mp h2
      subst this
      rw [countConsistent_eq_countP_zip]
      simp

/-- **C7 witness**: the amended theorem applied to a concrete nonempty
identical pair of runs. -/
theorem C7_score_extremes_witness :
    compare_and_merge_score [rowQualityPos] [rowQualityPos] = 100 :=
  C7_score_extremes.1 [rowQualityPos] [rowQualityPos] (by decide) rfl

/-- **C9**: the validation harness never raises: it always returns a
value; when the metrics computation raises, the error is caught and
returned as a result carrying a single error field; when it succeeds, a
metrics object is returned.  This holds for every gold set, including
the empty one. -/
theorem C9_validation_never_raises (loadResult : Except String (List GoldItem))
    (metricsCalc : SklearnCalc) (oracle1 oracle2 : Oracle) (dualMode : Bool) :
    (∃ v, run_gold_standard_validation loadResult metricsCalc oracle1 oracle2 dualMode
      = Except.ok v) ∧
    (∀ gold e, loadResult = Except.ok gold →
      metricsCalc (yTrueAspect gold)
          (yPredAspect (getPredictionsMap oracle1 (goldBatchInput gold) BATCH_SIZE)
            gold.length)
        = Except.error e →
      run_gold_standard_validation loadResult metricsCalc oracle1 oracle2 dualMode
        = Except.ok (ValidationResult.errorResult e)) ∧
    (∀ gold t, loadResult = Except.ok gold →
      metricsCalc (yTrueAspect gold)
          (yPredAspect (getPredictionsMap oracle1 (goldBatchInput gold) BATCH_SIZE)
            gold.length)
        = Except.ok t →
      ∃ a p r f c, run_gold_standard_validation loadResult metricsCalc oracle1 oracle2 dualMode
        = Except.ok (ValidationResult.metricsResult a p r f c)) := by
  refine ⟨?_, ?_, ?_⟩
  · unfold run_gold_standard_validation
    cases loadResult with
    | error e => exact ⟨_, rfl⟩
    | ok gold =>
      cases h : metricsCalc (yTrueAspect gold)
          (yPredAspect (getPredictionsMap oracle1 (goldBatchInput gold) BATCH_SIZE)
            gold.length) with
      | ok t =>
        obtain ⟨a, p, r, f⟩ := t
        simp only [h]
        exact ⟨_, rfl⟩
      | error e =>
        simp only [h]
        exact ⟨_, rfl⟩
  · intro gold e hload hmet
    subst hload
    unfold run_gold_standard_validation
    simp only [hmet]
  · intro gold t hload hmet
    subst hload
    obtain ⟨a, p, r, f⟩ := t
    unfold run_gold_standard_validation
    simp only [hmet]
    exact ⟨_, _, _, _, _, rfl⟩

/-- **C9 witness**: an empty gold set whose metrics computation raises
(as sklearn does on an empty label set) yields a structured error
result, returned normally. -/
theorem C9_validation_never_raises_witness :
    run_gold_standard_validation (Except.ok ([] : List GoldItem))
        (fun _ _ => Except.error "empty label set") (fun _ => []) (fun _ => []) false
      = Except.ok (ValidationResult.errorResult "empty label set") :=
  (C9_validation_never_raises (Except.ok []) (fun _ _ => Except.error "empty label set")
    (fun _ => []) (fun _ => []) false).2.1 [] "empty label set" rfl rfl

/-- **C8**: in dual mode the harness runs the whole gold set through
the prediction pipeline twice and the reported consistency equals the
fraction of gold samples (indexed by their assigned position id) whose
first-insight (aspect, sentiment) tuples agree across the passes, times
100, rounded to two decimals, with ("none", "none") for a sample
lacking predicted insights; the score is 0 for the empty gold set. -/
theorem C8_dual_mode_consistency (gold : List GoldItem) (metricsCalc : SklearnCalc)
    (oracle1 oracle2 : Oracle) :
    (run_gold_standard_validation (Except.ok gold) metricsCalc oracle1 oracle2 true
      = match metricsCalc (yTrueAspect gold)
            (yPredAspect (getPredictionsMap oracle1 (goldBatchInput gold) BATCH_SIZE)
              gold.length) with
        | Except.ok (a, p, r, f) =>
          Except.ok (ValidationResult.metricsResult (pyRound2 (a * 100))
            (pyRound2 (p * 100)) (pyRound2 (r * 100)) (pyRound2 (f * 100))
            (some (specDualConsistency oracle1 oracle2 gold)))
        | Except.error e => Except.ok (ValidationResult.errorResult e)) ∧
    specDualConsistency oracle1 oracle2 [] = 0 ∧
    (gold ≠ [] → specDualConsistency oracle1 oracle2 gold
      = pyRound2 ((((List.range gold.length).countP fun idx =>
          firstTuple (lastReturnedInsights oracle1 gold idx)
            == firstTuple (lastReturnedInsights oracle2 gold idx) : Nat) : ℚ)
        / gold.length * 100)) := by
  refine ⟨?_, by simp [specDualConsistency], fun hne => ?_⟩
  · unfold run_gold_standard_validation
    cases h : metricsCalc (yTrueAspect gold)
        (yPredAspect (getPredictionsMap oracle1 (goldBatchInput gold) BATCH_SIZE)
          gold.length) with
    | ok t =>
      obtain ⟨a, p, r, f⟩ := t
      simp [h, dualConsistencyScore_eq_spec]
    | error e => simp [h]
  · unfold specDualConsistency
    rw [if_neg fun h => hne (List.length_eq_zero.mp h)]

/-- **C8 witness**: the nonempty-case closed form at a one-item gold
set with oracles that return nothing: both passes yield
("none", "none"), so the score is the rounded 100 percent. -/
theorem C8_dual_mode_consistency_witness :
    specDualConsistency (fun _ => []) (fun _ => [])
        [{ text := "bad service", label_aspect := "service", label_sentiment := "negative" }]
      = pyRound2 ((((List.range 1).countP fun idx =>
          firstTuple (lastReturnedInsights (fun _ => [])
              [{ text := "bad service", label_aspect := "service",
                 label_sentiment := "negative" }] idx)
            == firstTuple (lastReturnedInsights (fun _ => [])
              [{ text := "bad service", label_aspect := "service",
                 label_sentiment := "negative" }] idx) : Nat) : ℚ) / 1 * 100) :=
  (C8_dual_mode_consistency
    [{ text := "bad service", label_aspect := "service", label_sentiment := "negative" }]
    (fun _ _ => Except.error "unused") (fun _ => []) (fun _ => [])).2.2 (by decide)

/-- **C1**: every input row whose text survives the filter is sent in
some batch and yields output rows equal to `emitRows` of its dict
lookup: at least one row always; exactly the single placeholder
(aspect "other", sentiment "neutral", empty evidence, no-insight
rationale) when the client's results omit the row's id or map it to an
empty insight list; otherwise one row per returned insight, in the
order received. -/
theorem C1_every_kept_row_emits (oracle : Oracle) (texts : List String)
    {batch_size : Nat} (hbs : batch_size ≠ 0) {i : Nat} (hi : i < texts.length)
    (hk : keepText texts[i] = true) :
    ∃ b ∈ sentBatches batch_size texts, (i, texts[i]) ∈ b ∧
      ((processExcelAnn oracle texts batch_size).filter fun x => x.1 == i).map Prod.snd
        = emitRows texts[i] (dictGetInsights (oracle b) i) ∧
      ((processExcelAnn oracle texts batch_size).filter fun x => x.1 == i).map Prod.snd
        ≠ [] ∧
      (((oracle b).filter (fun r => r.id == i) = [] ∨ dictGetInsights (oracle b) i = []) →
        ((processExcelAnn oracle texts batch_size).filter fun x => x.1 == i).map Prod.snd
          = [{ original_text := texts[i], aspect := "other", sentiment := "neutral",
               evidence := "", rationale := "No insight detected (or skipped by LLM)" }]) ∧
      (dictGetInsights (oracle b) i ≠ [] →
        ((processExcelAnn oracle texts batch_size).filter fun x => x.1 == i).map Prod.snd
          = (dictGetInsights (oracle b) i).map fun insight =>
              { original_text := texts[i], aspect := insight.aspect,
                sentiment := insight.sentiment, evidence := insight.evidence,
                rationale := insight.rationale }) := by
  have henum : (i, texts[i]) ∈ texts.enum :=
    List.mem_enum_iff_getElem?.mpr (by simp [List.getElem?_eq_getElem hi])
  obtain ⟨b, hb, hbmem, heq⟩ :=
    processAux_filter_eq oracle hbs (enum_pairwise_lt texts) henum hk
  have hbsent : b ∈ sentBatches batch_size texts := by
    refine List.mem_filter.mpr ⟨hb, ?_⟩
    cases hbe : b with
    | nil => rw [hbe] at hbmem; cases hbmem
    | cons x xs => simp
  simp only [processExcelAnn]
  refine ⟨b, hbsent, hbmem, heq, ?_, ?_, ?_⟩
  · rw [heq]; exact emitRows_ne_nil _ _
  · intro hcond
    have hins : dictGetInsights (oracle b) i = [] := by
      rcases hcond with hfil | hins
      · rw [dictGetInsights_eq, hfil]; rfl
      · exact hins
    rw [heq, hins]; rfl
  · intro hins
    rw [heq]
    unfold emitRows
    rw [if_neg fun h => hins (List.isEmpty_iff.mp h)]

/-- **C1 witness**: a surviving one-row input with an oracle returning
nothing still emits output rows for that row. -/
theorem C1_every_kept_row_emits_witness :
    ((processExcelAnn (fun _ => []) ["lovely product"] 1).filter
        fun x => x.1 == 0).map Prod.snd ≠ [] := by
  obtain ⟨b, _, _, _, hne, _⟩ := @C1_every_kept_row_emits (fun _ => []) ["lovely product"]
    1 (by decide) 0 (by decide) (by decide)
  exact hne

/-- **C3**: a row whose text fails the filter (length < 5 or "nan"
case-insensitively) appears in no batch sent to the LLM client and has
no output row. -/
theorem C3_filtered_rows_dropped (oracle : Oracle) (texts : List String)
    (batch_size : Nat) {i : Nat} (hi : i < texts.length)
    (hk : keepText texts[i] = false) :
    (sentBatches batch_size texts).flatten.filter (fun p => p.1 == i) = [] ∧
    (processExcelAnn oracle texts batch_size).filter (fun x => x.1 == i) = [] := by
  have key : ∀ s : String, (i, s) ∈ texts.enum → keepText s = true → False := by
    intro s hs hkeep
    have h1 : texts[i]? = some s := List.mem_enum_iff_getElem?.mp hs
    rw [List.getElem?_eq_getElem hi] at h1
    have h2 : texts[i] = s := by injection h1
    rw [← h2] at hkeep
    rw [hk] at hkeep
    cases hkeep
  constructor
  · refine List.filter_eq_nil_iff.mpr fun p hp => ?_
    obtain ⟨b, hb, hpb⟩ := List.mem_flatten.mp hp
    obtain ⟨hbl, _⟩ := List.mem_filter.mp hb
    obtain ⟨c, hc, hcb⟩ := List.mem_map.mp hbl
    rw [← hcb] at hpb
    obtain ⟨hpc, hkeep⟩ := List.mem_filter.mp hpb
    obtain ⟨pi, ps⟩ := p
    simp only [beq_iff_eq]
    intro hpi
    subst hpi
    exact key ps (mem_of_mem_chunkList hc hpc) hkeep
  · refine List.filter_eq_nil_iff.mpr fun x hx => ?_
    simp only [processExcelAnn] at hx
    obtain ⟨p, hp, hfst, hkeep⟩ := mem_fst_processAux hx
    obtain ⟨pi, ps⟩ := p
    simp only [beq_iff_eq]
    intro hxi
    rw [hxi] at hfst
    have hpi : pi = i := hfst.symm
    subst hpi
    exact key ps hp hkeep

/-- **C3 witness**: a too-short one-row input at a concrete batch size
is neither sent nor present in the output. -/
theorem C3_filtered_rows_dropped_witness :
    (sentBatches 3 ["hi"]).flatten.filter (fun p => p.1 == 0) = [] ∧
    (processExcelAnn (fun _ => [{ id := 0, insights := [] }]) ["hi"] 3).filter
        (fun x => x.1 == 0) = [] :=
  C3_filtered_rows_dropped (fun _ => [{ id := 0, insights := [] }]) ["hi"] 3
    (by decide) (by decide)

/-- **C4**: for a fixed row set and any positive batch size N, both the
chunk-size-1 run and the chunk-size-N run list all output rows of an
earlier input row before those of any later input row (the annotated
row-index sequence is nondecreasing), whatever each run's oracle
returns; and the output of a run is exactly the spec ordering: chunk
order, then original row order within the chunk, then insight order
within a row. -/
theorem C4_order_preserved (oracle1 oracleN : Oracle) (texts : List String)
    {N : Nat} (hN : N ≠ 0) :
    ((processExcelAnn oracle1 texts 1).map Prod.fst).Sorted (· ≤ ·) ∧
    ((processExcelAnn oracleN texts N).map Prod.fst).Sorted (· ≤ ·) ∧
    processExcelAnn oracleN texts N = specOrderedOutput oracleN texts N := by
  refine ⟨?_, ?_, processExcelAnn_eq_specOrdered oracleN texts N⟩
  · exact sorted_fst_processAux oracle1 (enum_pairwise_lt texts)
  · exact sorted_fst_processAux oracleN (enum_pairwise_lt texts)

/-- **C4 witness**: order preservation at a concrete two-row input with
batch size 2. -/
theorem C4_order_preserved_witness :
    ((processExcelAnn (fun _ => []) ["great product quality", "slow delivery here"] 1).map
      Prod.fst).Sorted (· ≤ ·) ∧
    ((processExcelAnn (fun _ => []) ["great product quality", "slow delivery here"] 2).map
      Prod.fst).Sorted (· ≤ ·) ∧
    processExcelAnn (fun _ => []) ["great product quality", "slow delivery here"] 2
      = specOrderedOutput (fun _ => []) ["great product quality", "slow delivery here"] 2 :=
  C4_order_preserved (fun _ => []) (fun _ => [])
    ["great product quality", "slow delivery here"] (by decide)

/-- **C10**: results whose ids were not among the sent ids of their
batch contribute nothing: pruning them from every oracle answer leaves
the whole output table unchanged, because the output is built by
iterating the sent items and looking up their ids. -/
theorem C10_unknown_ids_ignored (oracle : Oracle) (texts : List String)
    (batch_size : Nat) :
    process_excel_file (fun b => (oracle b).filter fun r => b.any fun p => p.1 == r.id)
        texts batch_size
      = process_excel_file oracle texts batch_size := by
  unfold process_excel_file processExcelAnn
  congr 1
  exact List.flatMap_congr fun chunk _ => processChunkAnn_prune oracle chunk
